import Mathlib

/-!
Shallow embedding of the interrupt-to-task bridge of the arceos kernel:
the ISR-side byte bridge (`notify_async_uart_irq_handler` over a bounded
`ArrayQueue` plus an `AtomicWaker` slot), the byte-stream adapter
(`UartStream::poll_next`, `UartStream::new`), the drain task
(`async_uart_handler`), the platform-independent IRQ handler table
(`register_handler_common`, `dispatch_irq_common`), and the console read
path (`read_bytes`, `ax_console_read_bytes`).

Machine state that the Rust code keeps in statics is passed explicitly.
Rust functions that can panic (`expect`) are embedded in `Except Panic`;
functions whose every fallible operation is handled in the source are
total Lean functions.
-/

namespace ArceOS

/-- A byte pushed through the bridge (`u8`); values are arbitrary here. -/
abbrev Byte := Nat

/-- An opaque waker handle; only identity matters for the bridge. -/
abbrev Waker := Nat

/-- A diagnostic line emitted via `axlog::ax_println!`. -/
abbrev LogMsg := String

/-- A panic message (the argument of `expect`). -/
abbrev Panic := String

/-- Model of `crossbeam_queue::ArrayQueue<u8>`: a FIFO bounded by the
capacity fixed at creation.  The head of `data` is the oldest element. -/
structure ArrayQueue where
  cap : Nat
  data : List Byte
deriving Repr, DecidableEq

/-- `ArrayQueue::new(cap)`: an empty queue of the given capacity. -/
def ArrayQueue.new (cap : Nat) : ArrayQueue :=
  ⟨cap, []⟩

/-- `ArrayQueue::push`: appends at the tail when there is room (second
component `true`, the `Ok` case); when full the queue is unchanged and the
value is rejected (second component `false`, the `Err(value)` case). -/
def ArrayQueue.push (q : ArrayQueue) (b : Byte) : ArrayQueue × Bool :=
  if q.data.length < q.cap then (⟨q.cap, q.data ++ [b]⟩, true) else (q, false)

/-- `ArrayQueue::pop`: removes and returns the oldest element, `none` when
empty. -/
def ArrayQueue.pop (q : ArrayQueue) : Option Byte × ArrayQueue :=
  match q.data with
  | [] => (none, q)
  | b :: rest => (some b, ⟨q.cap, rest⟩)

/-- The bridge statics: `UART_RECEIVE_QUEUE` (a `OnceCell`, `none` while
uninitialized) and the `AtomicWaker` slot `WAKER`. -/
structure BridgeState where
  queue : Option ArrayQueue
  waker : Option Waker
deriving Repr, DecidableEq

/-- `AtomicWaker::wake`: takes the registered waker out of the slot and
fires it; a no-op when none is registered.  Returns the emptied slot and
the list of wakers actually fired. -/
def AtomicWaker.wake : Option Waker → Option Waker × List Waker
  | none => (none, [])
  | some w => (none, [w])

/-- Everything `notify_async_uart_irq_handler` does: the resulting bridge
state, the diagnostics printed, and the wakers fired. -/
structure NotifyOut where
  state : BridgeState
  logs : List LogMsg
  fired : List Waker
deriving Repr, DecidableEq

/-- `axhal`'s `notify_async_uart_irq_handler(byte)`: `try_get` the queue
(warn and return if uninitialized); `push` the byte (warn and return if
full); on a successful push, `WAKER.wake()`.  Every fallible operation in
the source is matched on, so the embedding is a total function. -/
def notify_async_uart_irq_handler (st : BridgeState) (byte : Byte) : NotifyOut :=
  match st.queue with
  | some q =>
    let (q', ok) := q.push byte
    if ok then
      let (slot', fired) := AtomicWaker.wake st.waker
      ⟨⟨some q', slot'⟩, [], fired⟩
    else
      ⟨⟨some q', st.waker⟩, ["WARNING: UART_RECEIVE_QUEUE full"], []⟩
  | none => ⟨st, ["WARNING: UART_RECEIVE_QUEUE uninitialized"], []⟩

/-- Result of one `Stream::poll_next` call. -/
inductive PollNext where
  | ready (b : Byte)
  | pending
deriving Repr, DecidableEq

/-- `UartStream::poll_next`: `try_get` the queue (`expect` panics when
uninitialized); pop — on a byte, return `Ready` at once (the waker slot is
not touched); otherwise `WAKER.register(cx.waker())`, pop again, and on a
byte `WAKER.take()` and return `Ready`, else return `Pending`. -/
def UartStream.poll_next (st : BridgeState) (cxWaker : Waker) :
    Except Panic (BridgeState × PollNext) :=
  match st.queue with
  | none => .error "UART_RECEIVE_QUEUE not initialized"
  | some q =>
    match q.pop with
    | (some byte, q1) => .ok (⟨some q1, st.waker⟩, .ready byte)
    | (none, q1) =>
      match q1.pop with
      | (some byte, q2) => .ok (⟨some q2, none⟩, .ready byte)
      | (none, q2) => .ok (⟨some q2, some cxWaker⟩, .pending)

/-- `UartStream::new`: `try_init_once(|| ArrayQueue::new(100))` creates the
queue when the cell is uninitialized; when it is already initialized the
closure is not run, the cell keeps its value, and the `expect` panics
(the `Except.error` component). -/
def UartStream.new (st : BridgeState) : BridgeState × Except Panic Unit :=
  match st.queue with
  | none => (⟨some (ArrayQueue.new 100), st.waker⟩, .ok ())
  | some _ => (st, .error "ScancodeStream::new should only be called once")

/-- Bridge-level `pop` (spec §4.2): remove and return the oldest byte, or
`none` if empty; the waker slot is untouched. -/
def bridgePop (st : BridgeState) : Option Byte × BridgeState :=
  match st.queue with
  | none => (none, st)
  | some q =>
    let (r, q') := q.pop
    (r, ⟨some q', st.waker⟩)

/-- Bridge-level `register_waker` (spec §4.2): store the waker, replacing
whatever was previously registered. -/
def bridgeRegisterWaker (st : BridgeState) (w : Waker) : BridgeState :=
  ⟨st.queue, some w⟩

/-- Bridge-level waker consumption: empty the waker slot. -/
def bridgeTakeWaker (st : BridgeState) : BridgeState :=
  ⟨st.queue, none⟩

/-- Modelled from the spec (§4.3), for comparison with the code: attempt
`pop`; if a byte is available, return it immediately, consuming any stale
registered waker; if not, register the caller's waker, attempt `pop` once
more, returning the byte (taking back the waker) if now present, otherwise
signal suspend.  Accessing the stream before the bridge exists is fatal. -/
def pollProtocolSpec (st : BridgeState) (cxWaker : Waker) :
    Except Panic (BridgeState × PollNext) :=
  match st.queue with
  | none => .error "UART_RECEIVE_QUEUE not initialized"
  | some _ =>
    match bridgePop st with
    | (some b, st1) => .ok (bridgeTakeWaker st1, .ready b)
    | (none, st1) =>
      match bridgePop (bridgeRegisterWaker st1 cxWaker) with
      | (some b, st2) => .ok (bridgeTakeWaker st2, .ready b)
      | (none, st2) => .ok (st2, .pending)

/-- The amended protocol: as `pollProtocolSpec`, except that the
immediate-return fast path leaves the registered waker unchanged; the
stale waker is consumed only when the post-registration pop yields a
byte. -/
def pollProtocolAmended (st : BridgeState) (cxWaker : Waker) :
    Except Panic (BridgeState × PollNext) :=
  match st.queue with
  | none => .error "UART_RECEIVE_QUEUE not initialized"
  | some _ =>
    match bridgePop st with
    | (some b, st1) => .ok (st1, .ready b)
    | (none, st1) =>
      match bridgePop (bridgeRegisterWaker st1 cxWaker) with
      | (some b, st2) => .ok (bridgeTakeWaker st2, .ready b)
      | (none, st2) => .ok (st2, .pending)

/-- Fold the ISR-side push over a list of bytes: the bridge state after
`notify_async_uart_irq_handler` has been called once per byte, in order. -/
def notifyAll (st : BridgeState) (bytes : List Byte) : BridgeState :=
  bytes.foldl (fun s b => (notify_async_uart_irq_handler s b).state) st

/-- Fold `ArrayQueue::push` over a list of bytes, discarding the `Ok`/`Err`
results (as the ISR does). -/
def ArrayQueue.pushAll (q : ArrayQueue) (bytes : List Byte) : ArrayQueue :=
  bytes.foldl (fun q b => (q.push b).1) q

/-- Perform `n` consecutive bridge pops, collecting the bytes returned
(stopping early on an empty queue). -/
def popN (st : BridgeState) : Nat → List Byte × BridgeState
  | 0 => ([], st)
  | n + 1 =>
    match bridgePop st with
    | (some b, st') =>
      let (bs, st'') := popN st' n
      (b :: bs, st'')
    | (none, st') => ([], st')

/-- Number of bytes sitting in the bridge queue (0 when uninitialized);
the termination measure of the drain loop. -/
def bridgeLen (st : BridgeState) : Nat :=
  match st.queue with
  | none => 0
  | some q => q.data.length

/-- Result of polling the drain task once. -/
inductive TaskPoll where
  | ready
  | pending
deriving Repr, DecidableEq

/-- One executor poll of `async_uart_handler`: repeatedly poll the stream
adapter; for each byte yielded, lock `RECEIVE_BUFFER` and `push_back` the
byte when the buffer holds fewer than 1024 bytes (drop it silently
otherwise); when the stream returns `Pending`, the task itself returns
`Pending`.  The state threads the bridge and the line buffer. -/
def async_uart_handler_poll (st : BridgeState) (buffer : List Byte) (cxWaker : Waker) :
    Except Panic (BridgeState × List Byte × TaskPoll) :=
  match h : UartStream.poll_next st cxWaker with
  | .error e => .error e
  | .ok (st', .pending) => .ok (st', buffer, .pending)
  | .ok (st', .ready b) =>
    async_uart_handler_poll st' (if buffer.length < 1024 then buffer ++ [b] else buffer) cxWaker
termination_by bridgeLen st
decreasing_by
  rcases st with ⟨q?, wk⟩
  cases q? with
  | none => simp [UartStream.poll_next] at h
  | some q =>
    rcases q with ⟨c, data⟩
    cases data with
    | nil => simp [UartStream.poll_next, ArrayQueue.pop] at h
    | cons x rest =>
      simp only [UartStream.poll_next, ArrayQueue.pop, Except.ok.injEq,
        Prod.mk.injEq] at h
      obtain ⟨h1, h2⟩ := h
      simp [← h1, bridgeLen]

/-- The effect of draining a byte sequence into the line buffer: append
each byte in turn while the buffer holds fewer than 1024 bytes, dropping
the byte otherwise. -/
def drainAppend (buffer : List Byte) (bytes : List Byte) : List Byte :=
  bytes.foldl (fun a b => if a.length < 1024 then a ++ [b] else a) buffer

/-- `MAX_IRQ_COUNT` of the x86 platform layer. -/
def MAX_IRQ_COUNT : Nat := 256

/-- `APIC_TIMER_VECTOR` (0xf0): `set_enable` must not affect local-APIC
vectors at or above it. -/
def APIC_TIMER_VECTOR : Nat := 0xf0

/-- An opaque IRQ handler (a function pointer in the source; only identity
matters here). -/
abbrev IrqHandler := Nat

/-- The IRQ management state: the handler table `IRQ_HANDLER_TABLE` and
the enable bits held by the interrupt controller. -/
structure IrqState where
  handlers : Nat → Option IrqHandler
  enabled : Nat → Bool

/-- `HandlerTable::register_handler`: fails when the index is out of range
or a handler is already stored (compare-exchange on a non-empty slot);
otherwise stores the handler.  Returns the table and the success flag. -/
def HandlerTable.register_handler (t : Nat → Option IrqHandler) (idx : Nat)
    (handler : IrqHandler) : (Nat → Option IrqHandler) × Bool :=
  if idx < MAX_IRQ_COUNT then
    match t idx with
    | none => (fun i => if i = idx then some handler else t i, true)
    | some _ => (t, false)
  else (t, false)

/-- `HandlerTable::handle`: look up the handler for the index and invoke
it; returns the handler invoked (`none` means the IRQ was unhandled). -/
def HandlerTable.handle (t : Nat → Option IrqHandler) (idx : Nat) : Option IrqHandler :=
  if idx < MAX_IRQ_COUNT then t idx else none

/-- The x86 `set_enable(vector, enabled)`: program the IO APIC redirection
for the vector, but only for vectors below `APIC_TIMER_VECTOR` (local-APIC
interrupts must not be affected). -/
def set_enable (en : Nat → Bool) (vector : Nat) (enabled : Bool) : Nat → Bool :=
  if vector < APIC_TIMER_VECTOR then
    fun i => if i = vector then enabled else en i
  else en

/-- `register_handler_common(irq_num, handler)`: when `irq_num` is in
range and the table registration succeeds, enable the line via
`set_enable` and return `true`; otherwise return `false`. -/
def register_handler_common (st : IrqState) (irq_num : Nat) (handler : IrqHandler) :
    IrqState × Bool :=
  if irq_num < MAX_IRQ_COUNT then
    let (t', ok) := HandlerTable.register_handler st.handlers irq_num handler
    if ok then (⟨t', set_enable st.enabled irq_num true⟩, true)
    else (⟨t', st.enabled⟩, false)
  else (st, false)

/-- `dispatch_irq_common(irq_num)`: look the handler up in the table and
call it; returns the handler invoked (`none` logs "Unhandled IRQ"). -/
def dispatch_irq_common (st : IrqState) (irq_num : Nat) : Option IrqHandler :=
  HandlerTable.handle st.handlers irq_num

/-- The platform `getchar`: the next pending UART input byte, if any (the
head of the pending-input sequence). -/
def getchar : List Byte → Option Byte × List Byte
  | [] => (none, [])
  | c :: rest => (some c, rest)

/-- The `while read_len < bytes.len()` loop of the platform `read_bytes`:
`getchar` (the head of `uart`); on a byte, store it at `bytes[read_len]`
and advance; on `None`, break.  Returns the buffer and `read_len`. -/
def read_bytes_go (bytes : List Byte) (uart : List Byte) (read_len : Nat) :
    List Byte × Nat :=
  if read_len < bytes.length then
    match uart with
    | c :: rest => read_bytes_go (bytes.set read_len c) rest (read_len + 1)
    | [] => (bytes, read_len)
  else (bytes, read_len)

/-- The platform `read_bytes(bytes)`: run the loop from `read_len = 0`
against the pending UART input.  Both the 16550 and the PL011 versions are
this same loop over their `getchar`. -/
def read_bytes (bytes : List Byte) (uart : List Byte) : List Byte × Nat :=
  read_bytes_go bytes uart 0

/-- Carriage-return-to-line-feed translation of a single byte. -/
def crlf (c : Byte) : Byte :=
  if c = 13 then 10 else c

/-- The `for c in &mut buf[..len]` loop of `ax_console_read_bytes`:
replace every CR (13) among the first `len` bytes by LF (10), leaving the
rest of the buffer alone. -/
def replace_cr : List Byte → Nat → List Byte
  | buf, 0 => buf
  | [], _ + 1 => []
  | c :: rest, n + 1 => (if c = 13 then 10 else c) :: replace_cr rest n

/-- The `AxResult` error type; never produced on this path. -/
abbrev AxError := String

/-- `ax_console_read_bytes(buf)`: call the HAL `read_bytes`, then replace
CR by LF among the `len` bytes just read, and return `Ok(len)`. -/
def ax_console_read_bytes (buf : List Byte) (uart : List Byte) :
    Except AxError (List Byte × Nat) :=
  let r := read_bytes buf uart
  .ok (replace_cr r.1 r.2, r.2)

/-! ### Theorems -/

/-- C1 (counterexample): `UartStream::poll_next` is not equivalent to the
spec's protocol as claimed — on a bridge holding one byte with a stale
waker registered, the code returns the byte but leaves the stale waker in
place, while the claimed protocol consumes it. -/
theorem poll_next_spec_protocol_counterexample :
    UartStream.poll_next ⟨some ⟨100, [65]⟩, some 7⟩ 3 ≠
      pollProtocolSpec ⟨some ⟨100, [65]⟩, some 7⟩ 3 := by
  simp [UartStream.poll_next, pollProtocolSpec, ArrayQueue.pop, bridgePop,
    bridgeTakeWaker]

/-- C1 (amended): `UartStream::poll_next` is semantically equivalent to
the two-phase protocol in which the fast path returns an available byte
immediately but leaves any registered waker unchanged; the registered
waker is taken back only when the post-registration pop yields a byte. -/
theorem poll_next_eq_amended_protocol (st : BridgeState) (cxWaker : Waker) :
    UartStream.poll_next st cxWaker = pollProtocolAmended st cxWaker := by
  rcases st with ⟨q?, wk⟩
  cases q? with
  | none => rfl
  | some q =>
    rcases q with ⟨c, data⟩
    cases data with
    | nil => rfl
    | cons x rest => rfl

/-- C2: on an initialized bridge, the ISR-side push appends the byte and
fires the registered waker exactly once (`Option.toList` of the slot: one
firing when registered, none otherwise) when the queue has room; when the
queue is full it drops the byte, emits one diagnostic, fires no waker, and
leaves the bridge state unchanged, returning normally. -/
theorem notify_initialized_semantics (st : BridgeState) (q : ArrayQueue) (b : Byte)
    (hq : st.queue = some q) :
    (q.data.length < q.cap →
      notify_async_uart_irq_handler st b =
        ⟨⟨some ⟨q.cap, q.data ++ [b]⟩, none⟩, [], st.waker.toList⟩) ∧
    (¬ q.data.length < q.cap →
      notify_async_uart_irq_handler st b =
        ⟨st, ["WARNING: UART_RECEIVE_QUEUE full"], []⟩) := by
  rcases st with ⟨q?, wk⟩
  simp only [BridgeState.queue] at hq
  subst hq
  constructor
  · intro hlt
    cases wk <;>
      simp [notify_async_uart_irq_handler, ArrayQueue.push, hlt, AtomicWaker.wake,
        Option.toList]
  · intro hge
    simp [notify_async_uart_irq_handler, ArrayQueue.push, hge]

/-- C2 (witness): a push into a roomy queue with waker 5 registered fires
exactly `[5]`; a push into a full queue drops the byte with one warning. -/
theorem notify_initialized_semantics_witness :
    notify_async_uart_irq_handler ⟨some ⟨100, [1, 2]⟩, some 5⟩ 9 =
      ⟨⟨some ⟨100, [1, 2, 9]⟩, none⟩, [], [5]⟩ ∧
    notify_async_uart_irq_handler ⟨some ⟨2, [1, 2]⟩, some 5⟩ 9 =
      ⟨⟨some ⟨2, [1, 2]⟩, some 5⟩, ["WARNING: UART_RECEIVE_QUEUE full"], []⟩ := by
  constructor
  · exact (notify_initialized_semantics ⟨some ⟨100, [1, 2]⟩, some 5⟩ ⟨100, [1, 2]⟩ 9
      rfl).1 (by decide)
  · exact (notify_initialized_semantics ⟨some ⟨2, [1, 2]⟩, some 5⟩ ⟨2, [1, 2]⟩ 9
      rfl).2 (by decide)

/-- C6: the ISR-side push is a total function of the bridge state and the
byte — it returns normally in every case.  When the bridge is
uninitialized it leaves the state untouched and only emits the
"uninitialized" warning; when the queue is full it leaves the state
untouched and only emits the "full" warning; in every case at most one
diagnostic line is produced and nothing else escapes. -/
theorem notify_never_panics (st : BridgeState) (b : Byte) :
    (st.queue = none →
      notify_async_uart_irq_handler st b =
        ⟨st, ["WARNING: UART_RECEIVE_QUEUE uninitialized"], []⟩) ∧
    (∀ q, st.queue = some q → q.cap ≤ q.data.length →
      notify_async_uart_irq_handler st b =
        ⟨st, ["WARNING: UART_RECEIVE_QUEUE full"], []⟩) ∧
    (notify_async_uart_irq_handler st b).logs.length ≤ 1 := by
  rcases st with ⟨q?, wk⟩
  refine ⟨?_, ?_, ?_⟩
  · intro h
    simp only [BridgeState.queue] at h
    subst h
    rfl
  · intro q hq hfull
    simp only [BridgeState.queue] at hq
    subst hq
    simp [notify_async_uart_irq_handler, ArrayQueue.push, Nat.not_lt.mpr hfull]
  · cases q? with
    | none => simp [notify_async_uart_irq_handler]
    | some q =>
      by_cases h : q.data.length < q.cap <;>
        cases wk <;>
          simp [notify_async_uart_irq_handler, ArrayQueue.push, h, AtomicWaker.wake]

/-- C6 (witness): the uninitialized and full cases at concrete states. -/
theorem notify_never_panics_witness :
    notify_async_uart_irq_handler ⟨none, some 4⟩ 7 =
      ⟨⟨none, some 4⟩, ["WARNING: UART_RECEIVE_QUEUE uninitialized"], []⟩ ∧
    notify_async_uart_irq_handler ⟨some ⟨2, [8, 9]⟩, none⟩ 7 =
      ⟨⟨some ⟨2, [8, 9]⟩, none⟩, ["WARNING: UART_RECEIVE_QUEUE full"], []⟩ := by
  constructor
  · exact (notify_never_panics ⟨none, some 4⟩ 7).1 rfl
  · exact (notify_never_panics ⟨some ⟨2, [8, 9]⟩, none⟩ 7).2.1 ⟨2, [8, 9]⟩ rfl
      (by decide)

/-- C7: the queue storage is created (empty, capacity 100) exactly by the
first `UartStream::new` on an uninitialized bridge; any later call on an
initialized bridge leaves the whole bridge state — the queue and its
contents — intact and fails loudly (the `expect` on `try_init_once`
reports an error instead of re-initializing). -/
theorem uart_stream_new_idempotent_once (st : BridgeState) :
    (st.queue = none →
      UartStream.new st = (⟨some (ArrayQueue.new 100), st.waker⟩, .ok ())) ∧
    (∀ q, st.queue = some q →
      (UartStream.new st).1 = st ∧ (UartStream.new st).2.isOk = false) := by
  rcases st with ⟨q?, wk⟩
  constructor
  · intro h
    simp only [BridgeState.queue] at h
    subst h
    rfl
  · intro q hq
    simp only [BridgeState.queue] at hq
    subst hq
    exact ⟨rfl, rfl⟩

/-- C7 (witness): the first call creates the capacity-100 queue; a second
call on the resulting state changes nothing and reports the failure. -/
theorem uart_stream_new_idempotent_once_witness :
    UartStream.new ⟨none, none⟩ = (⟨some (ArrayQueue.new 100), none⟩, .ok ()) ∧
    (UartStream.new (UartStream.new ⟨none, none⟩).1).1 =
      (UartStream.new ⟨none, none⟩).1 ∧
    (UartStream.new (UartStream.new ⟨none, none⟩).1).2.isOk = false := by
  refine ⟨(uart_stream_new_idempotent_once ⟨none, none⟩).1 rfl, ?_, ?_⟩
  · exact ((uart_stream_new_idempotent_once
      (UartStream.new ⟨none, none⟩).1).2 (ArrayQueue.new 100) rfl).1
  · exact ((uart_stream_new_idempotent_once
      (UartStream.new ⟨none, none⟩).1).2 (ArrayQueue.new 100) rfl).2

/-- One ISR push on an initialized bridge: the queue component becomes the
result of `ArrayQueue::push` (overflow or not), for some waker slot. -/
theorem notify_state_queue (q : ArrayQueue) (w : Option Waker) (b : Byte) :
    ∃ w', (notify_async_uart_irq_handler ⟨some q, w⟩ b).state =
      ⟨some (q.push b).1, w'⟩ := by
  by_cases h : q.data.length < q.cap
  · cases w <;>
      exact ⟨none, by
        simp [notify_async_uart_irq_handler, ArrayQueue.push, h, AtomicWaker.wake]⟩
  · exact ⟨w, by simp [notify_async_uart_irq_handler, ArrayQueue.push, h]⟩

/-- Folding the ISR push acts on the queue exactly as folding
`ArrayQueue::push`. -/
theorem notifyAll_queue (bytes : List Byte) :
    ∀ q w, (notifyAll ⟨some q, w⟩ bytes).queue = some (q.pushAll bytes) := by
  induction bytes with
  | nil => intro q w; rfl
  | cons b rest ih =>
    intro q w
    obtain ⟨w', hw⟩ := notify_state_queue q w b
    show (notifyAll (notify_async_uart_irq_handler ⟨some q, w⟩ b).state rest).queue = _
    rw [hw]
    show _ = some (ArrayQueue.pushAll (q.push b).1 rest)
    exact ih (q.push b).1 w'

/-- With no overflow, folding `push` appends the bytes in order. -/
theorem pushAll_no_overflow (bytes : List Byte) :
    ∀ q : ArrayQueue, q.data.length + bytes.length ≤ q.cap →
      q.pushAll bytes = ⟨q.cap, q.data ++ bytes⟩ := by
  induction bytes with
  | nil => intro q h; cases q; simp [ArrayQueue.pushAll]
  | cons b rest ih =>
    intro q h
    have hlt : q.data.length < q.cap := by
      simp only [List.length_cons] at h
      omega
    show ArrayQueue.pushAll (q.push b).1 rest = _
    have hpush : (q.push b).1 = ⟨q.cap, q.data ++ [b]⟩ := by
      simp [ArrayQueue.push, hlt]
    rw [hpush, ih ⟨q.cap, q.data ++ [b]⟩ (by simp at h ⊢; omega)]
    simp

/-- In general, folding `push` keeps the oldest bytes: the data becomes
the old data followed by as many of the new bytes as there was room for;
later bytes are the ones rejected. -/
theorem pushAll_take (bytes : List Byte) :
    ∀ q : ArrayQueue, (q.pushAll bytes).cap = q.cap ∧
      (q.pushAll bytes).data =
        q.data ++ bytes.take (q.cap - q.data.length) := by
  induction bytes with
  | nil => intro q; simp [ArrayQueue.pushAll]
  | cons b rest ih =>
    intro q
    by_cases h : q.data.length < q.cap
    · have hpush : (q.push b).1 = ⟨q.cap, q.data ++ [b]⟩ := by
        simp [ArrayQueue.push, h]
      have step : ArrayQueue.pushAll q (b :: rest) =
          ArrayQueue.pushAll ⟨q.cap, q.data ++ [b]⟩ rest := by
        show ArrayQueue.pushAll (q.push b).1 rest = _
        rw [hpush]
      rw [step]
      obtain ⟨hc, hd⟩ := ih ⟨q.cap, q.data ++ [b]⟩
      refine ⟨hc, ?_⟩
      rw [hd]
      have harith : q.cap - q.data.length = (q.cap - (q.data.length + 1)) + 1 := by
        omega
      simp only [List.length_append, List.length_singleton, harith, List.take_succ_cons,
        List.append_assoc, List.cons_append, List.nil_append]
    · have hpush : (q.push b).1 = q := by
        simp [ArrayQueue.push, h]
      have step : ArrayQueue.pushAll q (b :: rest) = ArrayQueue.pushAll q rest := by
        show ArrayQueue.pushAll (q.push b).1 rest = _
        rw [hpush]
      rw [step]
      obtain ⟨hc, hd⟩ := ih q
      have hz : q.cap - q.data.length = 0 := by omega
      refine ⟨hc, ?_⟩
      rw [hd, hz]
      simp

/-- Popping at least as many times as the queue holds returns the whole
queue contents in order and empties the queue. -/
theorem popN_drain (l : List Byte) :
    ∀ n cap w, l.length ≤ n →
      popN ⟨some ⟨cap, l⟩, w⟩ n = (l, ⟨some ⟨cap, []⟩, w⟩) := by
  induction l with
  | nil =>
    intro n cap w _
    cases n with
    | zero => rfl
    | succ m => simp [popN, bridgePop, ArrayQueue.pop]
  | cons b rest ih =>
    intro n cap w hn
    cases n with
    | zero => simp at hn
    | succ m =>
      have hm : rest.length ≤ m := by
        simp only [List.length_cons] at hn
        omega
      simp [popN, bridgePop, ArrayQueue.pop, ih m cap w hm]

/-- C3: pushing N bytes through the ISR entry point into an initialized
empty bridge with no overflow (N at most the capacity), then performing N
consecutive bridge pops, returns exactly those bytes in push order. -/
theorem bridge_fifo_order (bytes : List Byte) (cap : Nat) (w : Option Waker)
    (h : bytes.length ≤ cap) :
    (popN (notifyAll ⟨some (ArrayQueue.new cap), w⟩ bytes) bytes.length).1 =
      bytes := by
  have hq := notifyAll_queue bytes (ArrayQueue.new cap) w
  rw [pushAll_no_overflow bytes (ArrayQueue.new cap)
    (by simpa [ArrayQueue.new] using h)] at hq
  rcases hstate : notifyAll ⟨some (ArrayQueue.new cap), w⟩ bytes with ⟨q?, w'⟩
  rw [hstate] at hq
  simp only [BridgeState.queue, ArrayQueue.new, List.nil_append] at hq
  subst hq
  rw [popN_drain bytes bytes.length cap w' (Nat.le_refl _)]

/-- C3 (witness): pushing `[65, 66, 67]` into an empty capacity-100 bridge
and popping three times returns `[65, 66, 67]`. -/
theorem bridge_fifo_order_witness :
    (popN (notifyAll ⟨some (ArrayQueue.new 100), none⟩ [65, 66, 67]) 3).1 =
      [65, 66, 67] :=
  bridge_fifo_order [65, 66, 67] 100 none (by decide)

/-- C4: starting from the bridge created by `UartStream::new` (capacity
fixed at 100), pushing `100 + k` bytes through the ISR entry point with no
intervening pop leaves the queue holding exactly the oldest 100 bytes
pushed (the overflow policy rejects the newest byte); popping as many
times as bytes were pushed retrieves exactly those oldest 100 bytes; and
after any prefix of the pushes the queue length is at most 100. -/
theorem bridge_bounded_loss (bytes : List Byte) (w : Option Waker) (k : Nat)
    (h : bytes.length = 100 + k) :
    (notifyAll (UartStream.new ⟨none, w⟩).1 bytes).queue =
      some ⟨100, bytes.take 100⟩ ∧
    (popN (notifyAll (UartStream.new ⟨none, w⟩).1 bytes) bytes.length).1 =
      bytes.take 100 ∧
    (∀ n, ((ArrayQueue.new 100).pushAll (bytes.take n)).data.length ≤ 100) := by
  have hnew : (UartStream.new ⟨none, w⟩).1 = ⟨some (ArrayQueue.new 100), w⟩ := rfl
  have hq := notifyAll_queue bytes (ArrayQueue.new 100) w
  obtain ⟨hc, hd⟩ := pushAll_take bytes (ArrayQueue.new 100)
  have hqval : (ArrayQueue.new 100).pushAll bytes = ⟨100, bytes.take 100⟩ := by
    rcases hpq : (ArrayQueue.new 100).pushAll bytes with ⟨c, d⟩
    rw [hpq] at hc hd
    simp only [ArrayQueue.new] at hc hd
    simp only [List.nil_append, Nat.sub_zero, List.length_nil] at hd
    rw [hc, hd]
  rw [hqval] at hq
  refine ⟨by rw [hnew]; exact hq, ?_, ?_⟩
  · rcases hstate : notifyAll ⟨some (ArrayQueue.new 100), w⟩ bytes with ⟨q?, w'⟩
    rw [hstate] at hq
    simp only [BridgeState.queue] at hq
    subst hq
    rw [hnew, hstate, popN_drain (bytes.take 100) bytes.length 100 w'
      (by simp [List.length_take])]
  · intro n
    obtain ⟨hc', hd'⟩ := pushAll_take (bytes.take n) (ArrayQueue.new 100)
    rw [hd']
    simp [ArrayQueue.new, List.length_take]

/-- C4 (witness): pushing the 100 + 2 bytes `0, …, 101` leaves exactly the
oldest 100 bytes `0, …, 99` in the queue and retrievable. -/
theorem bridge_bounded_loss_witness :
    (notifyAll (UartStream.new ⟨none, none⟩).1 (List.range 102)).queue =
      some ⟨100, (List.range 102).take 100⟩ ∧
    (popN (notifyAll (UartStream.new ⟨none, none⟩).1 (List.range 102))
        (List.range 102).length).1 = (List.range 102).take 100 ∧
    (∀ n, ((ArrayQueue.new 100).pushAll ((List.range 102).take n)).data.length
      ≤ 100) :=
  bridge_bounded_loss (List.range 102) none 2 (by simp)

/-- C5: `register_handler_common` returns `false` and leaves the whole
IRQ state unchanged when the id is out of range or a handler is already
registered for it — in particular, after a failed second registration the
first handler is still installed and is the one `dispatch_irq_common`
invokes — and on success it stores the handler, enables the line via
`set_enable`, leaves every other table entry unchanged, and returns
`true`. -/
theorem register_handler_common_spec (st : IrqState) (irq_num : Nat)
    (handler : IrqHandler) :
    (MAX_IRQ_COUNT ≤ irq_num →
      register_handler_common st irq_num handler = (st, false)) ∧
    (∀ h0, irq_num < MAX_IRQ_COUNT → st.handlers irq_num = some h0 →
      register_handler_common st irq_num handler = (st, false) ∧
      dispatch_irq_common st irq_num = some h0) ∧
    (irq_num < MAX_IRQ_COUNT → st.handlers irq_num = none →
      (register_handler_common st irq_num handler).2 = true ∧
      (register_handler_common st irq_num handler).1.handlers irq_num =
        some handler ∧
      (register_handler_common st irq_num handler).1.enabled =
        set_enable st.enabled irq_num true ∧
      (∀ j, j ≠ irq_num →
        (register_handler_common st irq_num handler).1.handlers j =
          st.handlers j)) := by
  refine ⟨?_, ?_, ?_⟩
  · intro hge
    simp [register_handler_common, Nat.not_lt.mpr hge]
  · intro h0 hlt hsome
    constructor
    · rcases st with ⟨t, en⟩
      simp only [IrqState.handlers] at hsome
      simp [register_handler_common, HandlerTable.register_handler, hlt, hsome]
    · simp [dispatch_irq_common, HandlerTable.handle, hlt, hsome]
  · intro hlt hnone
    simp [register_handler_common, HandlerTable.register_handler, hlt, hnone]
    intro j hj hj'
    exact absurd hj' hj

/-- C5 (witness): with handler 10 installed at id 4, re-registering id 4
fails and leaves handler 10 installed and dispatched; registering id 7
out of an empty slot succeeds, installs handler 20, enables line 7, and
leaves slot 4 alone; registering at the out-of-range id 256 fails. -/
theorem register_handler_common_spec_witness :
    (register_handler_common
        ⟨fun i => if i = 4 then some 10 else none, fun _ => false⟩ 4 20 =
      (⟨fun i => if i = 4 then some 10 else none, fun _ => false⟩, false) ∧
      dispatch_irq_common
        ⟨fun i => if i = 4 then some 10 else none, fun _ => false⟩ 4 = some 10) ∧
    (register_handler_common
        ⟨fun i => if i = 4 then some 10 else none, fun _ => false⟩ 7 20).2 =
      true ∧
    (register_handler_common
        ⟨fun i => if i = 4 then some 10 else none, fun _ => false⟩ 7 20).1.handlers
        7 = some 20 ∧
    (register_handler_common
        ⟨fun i => if i = 4 then some 10 else none, fun _ => false⟩ 7 20).1.handlers
        4 = some 10 ∧
    register_handler_common
        ⟨fun i => if i = 4 then some 10 else none, fun _ => false⟩ 256 20 =
      (⟨fun i => if i = 4 then some 10 else none, fun _ => false⟩, false) := by
  refine ⟨?_, ?_, ?_, ?_, ?_⟩
  · exact (register_handler_common_spec
      ⟨fun i => if i = 4 then some 10 else none, fun _ => false⟩ 4 20).2.1 10
      (by decide) rfl
  · exact ((register_handler_common_spec
      ⟨fun i => if i = 4 then some 10 else none, fun _ => false⟩ 7 20).2.2
      (by decide) rfl).1
  · exact ((register_handler_common_spec
      ⟨fun i => if i = 4 then some 10 else none, fun _ => false⟩ 7 20).2.2
      (by decide) rfl).2.1
  · exact ((register_handler_common_spec
      ⟨fun i => if i = 4 then some 10 else none, fun _ => false⟩ 7 20).2.2
      (by decide) rfl).2.2.2 4 (by decide)
  · exact (register_handler_common_spec
      ⟨fun i => if i = 4 then some 10 else none, fun _ => false⟩ 256 20).1
      (by decide)

/-- C8: polling the drain task over an initialized bridge drains the whole
queue: each queued byte in turn is appended to the line buffer exactly
when the buffer holds fewer than 1024 bytes and is silently dropped
otherwise (`drainAppend`); when the stream then signals suspend the task
itself returns `Pending`, with the queue emptied and the caller's waker
left registered. -/
theorem async_uart_handler_poll_drains (cap : Nat) (data : List Byte) :
    ∀ buffer wk w,
      async_uart_handler_poll ⟨some ⟨cap, data⟩, wk⟩ buffer w =
        .ok (⟨some ⟨cap, []⟩, some w⟩, drainAppend buffer data, .pending) := by
  induction data with
  | nil =>
    intro buffer wk w
    rw [async_uart_handler_poll]
    simp [UartStream.poll_next, ArrayQueue.pop, drainAppend]
  | cons b rest ih =>
    intro buffer wk w
    rw [async_uart_handler_poll]
    simp only [UartStream.poll_next, ArrayQueue.pop]
    exact ih (if buffer.length < 1024 then buffer ++ [b] else buffer) wk w

/-- The `read_bytes` loop returns `read_len = k + min (remaining room)
(pending input)` and rewrites exactly the positions `k ≤ i < read_len`
with the pending input, in order, leaving the rest of the buffer alone. -/
theorem read_bytes_go_spec (uart : List Byte) :
    ∀ (bytes : List Byte) (k : Nat),
      (read_bytes_go bytes uart k).2 =
        k + min (bytes.length - k) uart.length ∧
      (read_bytes_go bytes uart k).1 =
        bytes.take k ++ uart.take (bytes.length - k) ++
          bytes.drop (k + min (bytes.length - k) uart.length) := by
  induction uart with
  | nil =>
    intro bytes k
    rw [read_bytes_go]
    by_cases h : k < bytes.length <;> simp [h]
  | cons c rest ih =>
    intro bytes k
    rw [read_bytes_go]
    by_cases h : k < bytes.length
    · simp only [if_pos h]
      obtain ⟨ihlen, ihbuf⟩ := ih (bytes.set k c) (k + 1)
      rw [List.length_set] at ihlen ihbuf
      have hmin : min (bytes.length - k) (rest.length + 1) =
          min (bytes.length - (k + 1)) rest.length + 1 := by omega
      constructor
      · rw [ihlen]
        simp only [List.length_cons, hmin]
        omega
      · rw [ihbuf]
        have htk : (bytes.set k c).take (k + 1) = bytes.take k ++ [c] := by
          rw [List.set_eq_take_cons_drop c h, List.take_append_eq_append_take]
          simp [List.take_take, List.length_take, Nat.le_of_lt h]
        have hdr : (bytes.set k c).drop
            (k + 1 + min (bytes.length - (k + 1)) rest.length) =
            bytes.drop (k + 1 + min (bytes.length - (k + 1)) rest.length) := by
          apply List.drop_set_of_lt
          omega
        rw [htk, hdr]
        have hm : bytes.length - k = (bytes.length - (k + 1)) + 1 := by omega
        rw [hm, List.take_succ_cons]
        have hidx : k + ((bytes.length - (k + 1)) + 1) ⊓ (c :: rest).length =
            k + 1 + (bytes.length - (k + 1)) ⊓ rest.length := by
          simp only [List.length_cons]
          omega
        rw [hidx]
        simp [List.append_assoc]
    · simp only [if_neg h]
      have hz : bytes.length - k = 0 := by omega
      simp [hz]

/-- The CR-replacement loop acts as mapping `crlf` over the first `n`
bytes and leaving the rest untouched. -/
theorem replace_cr_spec (buf : List Byte) :
    ∀ n, replace_cr buf n = (buf.take n).map crlf ++ buf.drop n := by
  induction buf with
  | nil => intro n; cases n <;> simp [replace_cr]
  | cons c rest ih =>
    intro n
    cases n with
    | zero => simp [replace_cr]
    | succ m => simp [replace_cr, crlf, ih m]

/-- C9: `ax_console_read_bytes` returns `Ok` with exactly the count
reported by the HAL `read_bytes`, and its buffer is the HAL's buffer with
every CR (13) among the bytes just read replaced by LF (10) — other read
bytes are fixed by `crlf`, and every position past the read length is the
untouched tail (`drop`) of the HAL's buffer. -/
theorem ax_console_read_bytes_spec (buf uart : List Byte) :
    ax_console_read_bytes buf uart =
      .ok (((read_bytes buf uart).1.take (read_bytes buf uart).2).map crlf ++
             (read_bytes buf uart).1.drop (read_bytes buf uart).2,
           (read_bytes buf uart).2) := by
  simp [ax_console_read_bytes, replace_cr_spec]

/-- C10: the platform `read_bytes` reads `min (buffer length) (pending
input length)` bytes — it fills the buffer until it is full or `getchar`
first yields no byte — writes exactly the bytes read into the first
`read_len` positions in input order, and leaves every position from
`read_len` on unchanged (the final buffer is the input prefix followed by
the untouched `drop read_len` of the original buffer, with the length
preserved). -/
theorem read_bytes_frame (bytes uart : List Byte) :
    (read_bytes bytes uart).2 ≤ bytes.length ∧
    (read_bytes bytes uart).2 = min bytes.length uart.length ∧
    (read_bytes bytes uart).1 =
      uart.take (read_bytes bytes uart).2 ++
        bytes.drop (read_bytes bytes uart).2 ∧
    (read_bytes bytes uart).1.length = bytes.length := by
  obtain ⟨hlen, hbuf⟩ := read_bytes_go_spec uart bytes 0
  have hlen' : (read_bytes bytes uart).2 = min bytes.length uart.length := by
    rw [read_bytes, hlen]
    omega
  refine ⟨by rw [hlen']; omega, hlen', ?_, ?_⟩
  · rw [read_bytes, hbuf, hlen]
    simp only [Nat.sub_zero, Nat.zero_add, List.take_zero, List.nil_append]
    congr 1
    rcases Nat.le_total bytes.length uart.length with h | h
    · rw [Nat.min_eq_left h]
    · rw [Nat.min_eq_right h, List.take_length, List.take_of_length_le h]
  · rw [read_bytes, hbuf]
    simp [List.length_take]

end ArceOS
